import Mathlib

/-!
# Verification of the RBM engine (src/RBM.js)

A shallow embedding of the restricted-Boltzmann-machine engine in
`src/RBM.js`.  The weight matrix is a `List (List ℝ)` of dimensions
`(V+1) × (H+1)`; sampling layers are lists of `{state, probability}`
records; the ambient `Math.random()` stream is an explicit function
`ℕ → ℝ` giving the successive uniform draws, shifted as calls consume
them.  Fallible operations return `Except JSErr`; a thrown
`new Error('Invalid parameter')` is `.invalidParameter` and a JavaScript
`TypeError` (dereferencing `undefined`) is `.typeError`.

Index accesses are modelled with `List.getD` (in-range accesses agree
with JavaScript; out-of-range JavaScript behaviour such as array
extension does not arise under the dimension hypotheses of the
theorems below).
-/

namespace RBM

/-- Error kinds that the JavaScript code can throw:
`throw new Error('Invalid parameter')` in the two sampling methods,
and the runtime `TypeError` raised when `undefined` is dereferenced
(absent weight matrix, or spreading an undefined `hiddenLayerNeg`). -/
inductive JSErr where
  | invalidParameter : JSErr
  | typeError : JSErr
deriving DecidableEq, Repr

/-- A sampled unit: `{ state, probability }` as produced by
`getHiddenLayer` / `getVisibleLayer` (states are the numbers 0 or 1). -/
structure RBMUnit where
  state : ℝ
  probability : ℝ

/-- An argument passed to a sampling method: either a JavaScript array
of numbers or some non-array value (`Array.isArray` fails). -/
inductive JSInput where
  | arr (l : List ℝ) : JSInput
  | nonSeq : JSInput

/-- `RBM.prototype._logistic`: `1 / (1 + Math.exp(-x))`. -/
noncomputable def logistic (x : ℝ) : ℝ := 1 / (1 + Real.exp (-x))

/-- `RBM.prototype._gaussianRand`: sum six uniform draws, rescale with
`-standardDeviation + (rand / 6) * standardDeviation * 2`. -/
noncomputable def gaussianRand (standardDeviation : ℝ) (u : Fin 6 → ℝ) : ℝ :=
  -standardDeviation + ((∑ i, u i) / 6) * standardDeviation * 2

/-- Number of visible units recorded by a weight matrix:
`this.weights.length - 1`. -/
def visCount (w : List (List ℝ)) : ℕ := w.length - 1

/-- Number of hidden units recorded by a weight matrix:
`this.weights[0].length - 1`. -/
def hidCount (w : List (List ℝ)) : ℕ := (w.getD 0 []).length - 1

/-- Advance the ambient random stream past `n` consumed draws. -/
def shift (r : ℕ → ℝ) (n : ℕ) : ℕ → ℝ := fun k => r (k + n)

/-- The activation-energy loop of `getHiddenLayer` for hidden unit `i`:
accumulate `weights[j][i] * nodes[j]` over all node indices `j`,
skipping (adding nothing for) every `j` with `nodes[j] < 0`. -/
noncomputable def hiddenEnergy (w : List (List ℝ)) (nodes : List ℝ) (i : ℕ) : ℝ :=
  ((List.range nodes.length).map fun j =>
    if nodes.getD j 0 < 0 then 0
    else (w.getD j []).getD i 0 * nodes.getD j 0).sum

/-- The activation-energy loop of `getVisibleLayer` for visible unit
`i`: accumulate `weights[i][j] * nodes[j]` over all node indices `j`
(no sign skip). -/
noncomputable def visibleEnergy (w : List (List ℝ)) (nodes : List ℝ) (i : ℕ) : ℝ :=
  ((List.range nodes.length).map fun j =>
    (w.getD i []).getD j 0 * nodes.getD j 0).sum

/-- `RBM.prototype.getHiddenLayer`.  Guard: input must be an array of
length `weights.length - 1` and non-empty.  For each hidden unit
`i ∈ 1..weights[0].length-1`, the activation energy is `hiddenEnergy`
over the bias-augmented input `nodes = [1, ...visibleNodes]`; the
unit's probability is `logistic` of the energy and its state compares
that probability against one uniform draw. -/
noncomputable def getHiddenLayer (w : List (List ℝ)) (input : JSInput)
    (r : ℕ → ℝ) : Except JSErr (List RBMUnit) :=
  match input with
  | .nonSeq => .error .invalidParameter
  | .arr visibleNodes =>
    if visibleNodes.length ≠ w.length - 1 ∨ visibleNodes.length = 0 then
      .error .invalidParameter
    else
      .ok <| (List.range ((w.getD 0 []).length - 1)).map fun idx =>
        { state :=
            if logistic (hiddenEnergy w (1 :: visibleNodes) (idx + 1)) > r idx
            then 1 else 0
          probability := logistic (hiddenEnergy w (1 :: visibleNodes) (idx + 1)) }

/-- `RBM.prototype.getVisibleLayer`.  Guard: input must be an array of
length `weights[0].length - 1` and non-empty.  For each visible unit
`i ∈ 1..weights.length-1`, the activation energy is `visibleEnergy`
over the bias-augmented input `nodes = [1, ...hiddenNodes]`. -/
noncomputable def getVisibleLayer (w : List (List ℝ)) (input : JSInput)
    (r : ℕ → ℝ) : Except JSErr (List RBMUnit) :=
  match input with
  | .nonSeq => .error .invalidParameter
  | .arr hiddenNodes =>
    if hiddenNodes.length ≠ (w.getD 0 []).length - 1 ∨ hiddenNodes.length = 0 then
      .error .invalidParameter
    else
      .ok <| (List.range (w.length - 1)).map fun idx =>
        { state :=
            if logistic (visibleEnergy w (1 :: hiddenNodes) (idx + 1)) > r idx
            then 1 else 0
          probability := logistic (visibleEnergy w (1 :: hiddenNodes) (idx + 1)) }

/-- One iteration of the negative-phase Gibbs loop body, iterated `k`
more times after the first: resample hidden from the visible
probabilities, then visible from the hidden states.  The JavaScript map
`e => e.probability || e` reduces to `e.probability` because a
probability is `logistic` of a real energy, hence strictly positive, so
the falsy fallback to the whole record never fires. -/
noncomputable def negLoop (w : List (List ℝ)) (v h : List RBMUnit) (k : ℕ)
    (r : ℕ → ℝ) : Except JSErr (List RBMUnit × List RBMUnit) :=
  match k with
  | 0 => .ok (v, h)
  | k + 1 => do
    let h2 ← getHiddenLayer w (.arr (v.map RBMUnit.probability)) r
    let v2 ← getVisibleLayer w (.arr (h2.map RBMUnit.state)) (shift r (hidCount w))
    negLoop w v2 h2 k (shift r (hidCount w + visCount w))

/-- The negative CD phase of `train`: starting from the clamped data,
`gibbsSteps` alternations of hidden-from-visible / visible-from-hidden.
With `gibbsSteps = 0` the loop never runs, `hiddenLayerNeg` stays
`undefined`, and spreading it at the bias-augmentation line throws a
`TypeError` (before any weight is touched). -/
noncomputable def negPhase (w : List (List ℝ)) (data : List ℝ) (gibbs : ℕ)
    (r : ℕ → ℝ) : Except JSErr (List RBMUnit × List RBMUnit) :=
  match gibbs with
  | 0 => .error .typeError
  | k + 1 => do
    let h1 ← getHiddenLayer w (.arr data) r
    let v1 ← getVisibleLayer w (.arr (h1.map RBMUnit.state)) (shift r (hidCount w))
    negLoop w v1 h1 k (shift r (hidCount w + visCount w))

/-- The in-place learning rule of `train`, as a function on matrices:
for `i` over the augmented positive visible layer and `j` over the
augmented positive hidden layer,
`weights[i][j] += learningRate * (positive - negative)` with
`positive = visibleLayerPos[i] * hiddenLayerPos[j].probability` and
`negative = visibleLayerNeg[i].probability * hiddenLayerNeg[j].probability`;
a row `i` with `visibleLayerPos[i] < 0` is skipped entirely. -/
noncomputable def updateWeights (w : List (List ℝ)) (lr : ℝ) (visPos : List ℝ)
    (hPos vNeg hNeg : List RBMUnit) : List (List ℝ) :=
  w.mapIdx fun i row =>
    if i < visPos.length then
      if visPos.getD i 0 < 0 then row
      else row.mapIdx fun j x =>
        if j < hPos.length then
          x + lr * (visPos.getD i 0 * (hPos.getD j ⟨0, 0⟩).probability -
            (vNeg.getD i ⟨0, 0⟩).probability * (hNeg.getD j ⟨0, 0⟩).probability)
        else x
    else row

/-- The per-example error accumulator of `train`: over the same
`(i, j)` pairs as the weight update (row `i` skipped when
`visibleLayerPos[i] < 0`), add
`((visibleLayerPos[i] ? 1 : 0) - negative) ** 2` where `negative` is
the negative statistic
`visibleLayerNeg[i].probability * hiddenLayerNeg[j].probability`
(JavaScript truthiness of a real number is `≠ 0`). -/
noncomputable def cdError (visPos : List ℝ) (hPos vNeg hNeg : List RBMUnit) : ℝ :=
  ((List.range visPos.length).map fun i =>
    if visPos.getD i 0 < 0 then 0
    else ((List.range hPos.length).map fun j =>
      ((if visPos.getD i 0 = 0 then (0 : ℝ) else 1) -
        (vNeg.getD i ⟨0, 0⟩).probability * (hNeg.getD j ⟨0, 0⟩).probability) ^ 2).sum).sum

/-- The per-example error formula as the specification words it
(squared difference between the binarized positive-visible value and
the *negative-visible reconstruction probability at `i`* alone), over
the same `(i, j)` pairs as the update loop.  This follows the spec's
sentence, not the source, and exists to be compared with `cdError`. -/
noncomputable def cdErrorSpec (visPos : List ℝ) (hPos vNeg : List RBMUnit) : ℝ :=
  ((List.range visPos.length).map fun i =>
    if visPos.getD i 0 < 0 then 0
    else ((List.range hPos.length).map fun j =>
      ((if visPos.getD i 0 = 0 then (0 : ℝ) else 1) -
        (vNeg.getD i ⟨0, 0⟩).probability) ^ 2).sum).sum

/-- The body of `dataset.forEach` in `train`: positive phase, negative
phase, bias augmentation (prepend `1` to the positive visible layer and
`{state: 1, probability: 1}` to the three sampled layers), then the
weight update and error accumulation.  Returns the example's error and
the updated matrix. -/
noncomputable def trainExample (w : List (List ℝ)) (data : List ℝ) (lr : ℝ)
    (gibbs : ℕ) (r : ℕ → ℝ) : Except JSErr (ℝ × List (List ℝ)) := do
  let hp ← getHiddenLayer w (.arr data) r
  let (vn, hn) ← negPhase w data gibbs (shift r (hidCount w))
  let visPos : List ℝ := 1 :: data
  let hPos : List RBMUnit := ⟨1, 1⟩ :: hp
  let vNeg : List RBMUnit := ⟨1, 1⟩ :: vn
  let hNeg : List RBMUnit := ⟨1, 1⟩ :: hn
  .ok (cdError visPos hPos vNeg hNeg, updateWeights w lr visPos hPos vNeg hNeg)

/-- Uniform draws consumed by one successful `forEach` iteration:
one per hidden unit in the positive phase, then one per hidden and per
visible unit in each Gibbs step. -/
def consumed (w : List (List ℝ)) (gibbs : ℕ) : ℕ :=
  hidCount w + gibbs * (hidCount w + visCount w)

/-- `dataset.forEach` of `train`: process the rows in order, threading
the mutated weight matrix and collecting the per-example errors; a
thrown error aborts the whole call. -/
noncomputable def trainLoop (w : List (List ℝ)) (dataset : List (List ℝ))
    (lr : ℝ) (gibbs : ℕ) (r : ℕ → ℝ) : Except JSErr (List ℝ × List (List ℝ)) :=
  match dataset with
  | [] => .ok ([], w)
  | d :: rest => do
    let (e, w2) ← trainExample w d lr gibbs r
    let (es, wf) ← trainLoop w2 rest lr gibbs (shift r (consumed w gibbs))
    .ok (e :: es, wf)

/-- The marginal activation proportions computed by `train` before lazy
initialization: `proportions[i] = (Σ_j dataset[j][i]) / dataset.length`
for `i < dataset[0].length`. -/
noncomputable def proportions (dataset : List (List ℝ)) (n : ℕ) : List ℝ :=
  (List.range n).map fun i =>
    ((dataset.map fun row => row.getD i 0).sum) / (dataset.length : ℝ)

/-- `RBM.prototype._setInitWeights` over real entries: `(V+1) × (H+1)`
rows; `weights[0][0]` holds `null` in JavaScript, modelled here by `0`,
the value JavaScript coerces it to when the update rule later applies
`+=` to it; `weights[0][j] = 0`; `weights[i][0] = log(p/(1-p))`;
regular weights are `_gaussianRand(0.01)` draws (the uniform draws for
cell `(i, j)` are `u i j`).  The companion `setInitWeightsJS` below
keeps the exact JavaScript values (null, infinities) for the bias
column. -/
noncomputable def setInitWeights (props : List ℝ) (hiddenN : ℕ)
    (u : ℕ → ℕ → Fin 6 → ℝ) : List (List ℝ) :=
  (List.range (props.length + 1)).map fun i =>
    (List.range (hiddenN + 1)).map fun j =>
      if i = 0 ∧ j = 0 then 0
      else if i = 0 then 0
      else if j = 0 then Real.log (props.getD (i - 1) 0 / (1 - props.getD (i - 1) 0))
      else gaussianRand 0.01 (u i j)

/-- JavaScript truthiness of the optional `hiddenNodes` argument:
absent (`undefined`) and `0` are falsy. -/
def hTruthy : Option ℕ → Bool
  | none => false
  | some n => n != 0

/-- `RBM.prototype.train`.  Lazily initializes the weights when they are
absent and `hiddenNodes` is truthy (with an empty dataset,
`dataset[0].length` dereferences `undefined` and throws a `TypeError`);
when the weights are absent and `hiddenNodes` is falsy, no
initialization happens and the first sampling call dereferences the
absent matrix (`TypeError`) — unless the dataset is empty, in which
case the call returns an empty error list.  The gaussian draws `u` for
initialization and the sampling draws `r` model disjoint portions of
the single `Math.random()` stream. -/
noncomputable def train (weights : Option (List (List ℝ)))
    (dataset : List (List ℝ)) (lr : ℝ) (gibbs : ℕ) (hiddenNodes : Option ℕ)
    (u : ℕ → ℕ → Fin 6 → ℝ) (r : ℕ → ℝ) :
    Except JSErr (List ℝ × Option (List (List ℝ))) :=
  match weights with
  | some w => (trainLoop w dataset lr gibbs r).map fun p => (p.1, some p.2)
  | none =>
    if hTruthy hiddenNodes then
      match dataset with
      | [] => .error .typeError
      | d :: _ =>
        let w0 := setInitWeights (proportions dataset d.length) (hiddenNodes.getD 0) u
        (trainLoop w0 dataset lr gibbs r).map fun p => (p.1, some p.2)
    else
      if dataset.isEmpty then .ok ([], none) else .error .typeError

/-- A JavaScript number-or-null value, distinguishing the infinities and
`NaN` that `Math.log` and division can produce. -/
inductive JSNum where
  | num (x : ℝ) : JSNum
  | posInf : JSNum
  | negInf : JSNum
  | nan : JSNum
  | null : JSNum

/-- JavaScript division of two (finite) numbers: division by zero gives
a signed infinity, `0/0` gives `NaN`. -/
noncomputable def jsDiv (a b : ℝ) : JSNum :=
  if b = 0 then (if 0 < a then .posInf else if a < 0 then .negInf else .nan)
  else .num (a / b)

/-- JavaScript `Math.log`: `-Infinity` at `0`, `NaN` on negatives and
`NaN`, `Infinity` at `Infinity`; `null` coerces to `0`. -/
noncomputable def jsLog : JSNum → JSNum
  | .num x => if 0 < x then .num (Real.log x) else if x = 0 then .negInf else .nan
  | .posInf => .posInf
  | .negInf => .nan
  | .nan => .nan
  | .null => .negInf

/-- The initial visible bias weight for a unit with marginal activation
proportion `p`, exactly as JavaScript computes it:
`Math.log(p / (1 - p))` with no guard on `p`. -/
noncomputable def visibleBiasInit (p : ℝ) : JSNum := jsLog (jsDiv p (1 - p))

/-- `RBM.prototype._setInitWeights` with exact JavaScript cell values:
`null` at `(0,0)`, hidden bias weights `0`, visible bias weights
`visibleBiasInit` (possibly infinite), gaussian regular weights. -/
noncomputable def setInitWeightsJS (props : List ℝ) (hiddenN : ℕ)
    (u : ℕ → ℕ → Fin 6 → ℝ) : List (List JSNum) :=
  (List.range (props.length + 1)).map fun i =>
    (List.range (hiddenN + 1)).map fun j =>
      if i = 0 ∧ j = 0 then .null
      else if i = 0 then .num 0
      else if j = 0 then visibleBiasInit (props.getD (i - 1) 0)
      else .num (gaussianRand 0.01 (u i j))

/-! ## Basic facts about the logistic function -/

theorem logistic_pos (x : ℝ) : 0 < logistic x := by
  unfold logistic
  positivity

theorem logistic_lt_one (x : ℝ) : logistic x < 1 := by
  unfold logistic
  rw [div_lt_one (by positivity)]
  linarith [Real.exp_pos (-x)]

theorem logistic_injective : Function.Injective logistic := by
  intro x y hxy
  unfold logistic at hxy
  have hx : (0:ℝ) < 1 + Real.exp (-x) := by positivity
  have hy : (0:ℝ) < 1 + Real.exp (-y) := by positivity
  field_simp at hxy
  linarith

theorem logistic_zero : logistic 0 = 1 / 2 := by
  unfold logistic
  rw [neg_zero, Real.exp_zero]
  norm_num

/-- **C5**: on an engine whose weight matrix has `V + 1` rows and
`H + 1` columns, each sampling call whose input is not a sequence, is
empty, or has the wrong length (`≠ V` for `getHiddenLayer`, `≠ H` for
`getVisibleLayer`) raises `Invalid parameter` synchronously; the
embedded sampling operations never touch the weight matrix (the source
methods contain no assignment to `this.weights`), so no weight mutation
occurs. -/
theorem sampling_invalid_argument (w : List (List ℝ)) (V H : ℕ) (r : ℕ → ℝ)
    (hw : w.length = V + 1) (hw0 : (w.getD 0 []).length = H + 1) :
    (∀ l : List ℝ, (l.length ≠ V ∨ l = []) →
        getHiddenLayer w (.arr l) r = .error .invalidParameter) ∧
    getHiddenLayer w .nonSeq r = .error .invalidParameter ∧
    (∀ l : List ℝ, (l.length ≠ H ∨ l = []) →
        getVisibleLayer w (.arr l) r = .error .invalidParameter) ∧
    getVisibleLayer w .nonSeq r = .error .invalidParameter := by
  refine ⟨fun l hl => ?_, rfl, fun l hl => ?_, rfl⟩
  · have hcond : l.length ≠ w.length - 1 ∨ l.length = 0 := by
      rcases hl with h | h
      · exact Or.inl (by rw [hw]; simpa using h)
      · exact Or.inr (by simp [h])
    simp only [getHiddenLayer]
    rw [if_pos hcond]
  · have hcond : l.length ≠ (w.getD 0 []).length - 1 ∨ l.length = 0 := by
      rcases hl with h | h
      · exact Or.inl (by rw [hw0]; simpa using h)
      · exact Or.inr (by simp [h])
    simp only [getVisibleLayer]
    rw [if_pos hcond]

/-- Witness for `sampling_invalid_argument`: a 1-visible / 1-hidden
engine rejects a length-2 visible input. -/
theorem sampling_invalid_argument_witness :
    getHiddenLayer [[0, 0], [0, 0]] (.arr [1, 1]) (fun _ => 0) =
      .error .invalidParameter :=
  (sampling_invalid_argument [[0, 0], [0, 0]] 1 1 (fun _ => 0)
    (by simp) (by simp)).1 [1, 1] (Or.inl (by simp))

/-- **C6**: on an engine whose weight matrix has `V + 1` rows and
`H + 1` columns, `getHiddenLayer` on any valid input returns exactly
`H` units and `getVisibleLayer` returns exactly `V` units, for every
random stream. -/
theorem sampling_output_length (w : List (List ℝ)) (V H : ℕ) (r : ℕ → ℝ)
    (hw : w.length = V + 1) (hw0 : (w.getD 0 []).length = H + 1) :
    (∀ v : List ℝ, v.length = V → v ≠ [] →
        ∃ out, getHiddenLayer w (.arr v) r = .ok out ∧ out.length = H) ∧
    (∀ hdn : List ℝ, hdn.length = H → hdn ≠ [] →
        ∃ out, getVisibleLayer w (.arr hdn) r = .ok out ∧ out.length = V) := by
  constructor
  · intro v hv hne
    have hcond : ¬(v.length ≠ w.length - 1 ∨ v.length = 0) := by
      push_neg
      exact ⟨by rw [hw, hv]; simp, by simpa [List.length_eq_zero] using hne⟩
    simp only [getHiddenLayer]
    rw [if_neg hcond]
    refine ⟨_, rfl, ?_⟩
    have h0 : (w[0]?.getD []).length = H + 1 := by
      simpa [List.getD_eq_getElem?_getD] using hw0
    simp [h0]
  · intro hdn hh hne
    have hcond : ¬(hdn.length ≠ (w.getD 0 []).length - 1 ∨ hdn.length = 0) := by
      push_neg
      exact ⟨by rw [hw0, hh]; simp, by simpa [List.length_eq_zero] using hne⟩
    simp only [getVisibleLayer]
    rw [if_neg hcond]
    exact ⟨_, rfl, by simp [hw]⟩


/-- Witness for `sampling_output_length` on a 1×1 engine. -/
theorem sampling_output_length_witness :
    ∃ out, getHiddenLayer [[0, 0], [0, 0]] (.arr [1]) (fun _ => 0) = .ok out ∧
      out.length = 1 :=
  (sampling_output_length [[0, 0], [0, 0]] 1 1 (fun _ => 0)
    (by simp) (by simp)).1 [1] (by simp) (by simp)

open intervalIntegral in
theorem int01_affine (a b : ℝ) : (∫ x in (0:ℝ)..1, (a + b * x)) = a + b / 2 := by
  have hid : IntervalIntegrable (fun x : ℝ => x) MeasureTheory.volume 0 1 :=
    intervalIntegrable_id
  have hc : IntervalIntegrable (fun _ : ℝ => a) MeasureTheory.volume 0 1 :=
    intervalIntegrable_const
  rw [integral_add hc (hid.const_mul b), integral_const, integral_const_mul, integral_id,
    smul_eq_mul]
  ring

/-- **C8**: `_gaussianRand` returns `(sum/6)*2*s - s` from the sum of
its six uniform draws; whenever the draws lie in `[0, 1)` and `s ≥ 0`
the result lies in `[-s, s]`; and the expected value over the six
independent uniform draws (the iterated integral over `[0, 1]⁶`) is
`0`. -/
theorem gaussianRand_range_and_mean :
    (∀ (s : ℝ) (u : Fin 6 → ℝ),
        gaussianRand s u = ((∑ i, u i) / 6) * 2 * s - s) ∧
    (∀ (s : ℝ) (u : Fin 6 → ℝ), 0 ≤ s → (∀ i, 0 ≤ u i ∧ u i < 1) →
        -s ≤ gaussianRand s u ∧ gaussianRand s u ≤ s) ∧
    (∀ s : ℝ,
      (∫ x0 in (0:ℝ)..1, ∫ x1 in (0:ℝ)..1, ∫ x2 in (0:ℝ)..1,
        ∫ x3 in (0:ℝ)..1, ∫ x4 in (0:ℝ)..1, ∫ x5 in (0:ℝ)..1,
          gaussianRand s ![x0, x1, x2, x3, x4, x5]) = 0) := by
  refine ⟨fun s u => by unfold gaussianRand; ring, fun s u hs hu => ?_, fun s => ?_⟩
  · have hsum0 : (0:ℝ) ≤ ∑ i, u i := Finset.sum_nonneg fun i _ => (hu i).1
    have hsum6 : (∑ i, u i) ≤ 6 := by
      calc (∑ i, u i) ≤ ∑ _i : Fin 6, (1:ℝ) :=
            Finset.sum_le_sum fun i _ => le_of_lt (hu i).2
        _ = 6 := by simp
    constructor
    · unfold gaussianRand
      nlinarith
    · unfold gaussianRand
      nlinarith
  · have h5 : ∀ x0 x1 x2 x3 x4 : ℝ,
        (∫ x5 in (0:ℝ)..1, gaussianRand s ![x0, x1, x2, x3, x4, x5]) =
          -s + (x0 + x1 + x2 + x3 + x4 + 1/2) / 6 * s * 2 := by
      intro x0 x1 x2 x3 x4
      rw [show (fun x5 : ℝ => gaussianRand s ![x0, x1, x2, x3, x4, x5]) =
          fun x5 : ℝ => (-s + (x0 + x1 + x2 + x3 + x4) / 6 * s * 2) + (s / 3) * x5 by
        funext x5
        unfold gaussianRand
        simp [Fin.sum_univ_succ]
        ring]
      rw [int01_affine]
      ring
    have h4 : ∀ x0 x1 x2 x3 : ℝ,
        (∫ x4 in (0:ℝ)..1, (-s + (x0 + x1 + x2 + x3 + x4 + 1/2) / 6 * s * 2)) =
          -s + (x0 + x1 + x2 + x3 + 1) / 6 * s * 2 := by
      intro x0 x1 x2 x3
      rw [show (fun x4 : ℝ => -s + (x0 + x1 + x2 + x3 + x4 + 1/2) / 6 * s * 2) =
          fun x4 : ℝ => (-s + (x0 + x1 + x2 + x3 + 1/2) / 6 * s * 2) + (s / 3) * x4 by
        funext x4; ring]
      rw [int01_affine]
      ring
    have h3 : ∀ x0 x1 x2 : ℝ,
        (∫ x3 in (0:ℝ)..1, (-s + (x0 + x1 + x2 + x3 + 1) / 6 * s * 2)) =
          -s + (x0 + x1 + x2 + 3/2) / 6 * s * 2 := by
      intro x0 x1 x2
      rw [show (fun x3 : ℝ => -s + (x0 + x1 + x2 + x3 + 1) / 6 * s * 2) =
          fun x3 : ℝ => (-s + (x0 + x1 + x2 + 1) / 6 * s * 2) + (s / 3) * x3 by
        funext x3; ring]
      rw [int01_affine]
      ring
    have h2 : ∀ x0 x1 : ℝ,
        (∫ x2 in (0:ℝ)..1, (-s + (x0 + x1 + x2 + 3/2) / 6 * s * 2)) =
          -s + (x0 + x1 + 2) / 6 * s * 2 := by
      intro x0 x1
      rw [show (fun x2 : ℝ => -s + (x0 + x1 + x2 + 3/2) / 6 * s * 2) =
          fun x2 : ℝ => (-s + (x0 + x1 + 3/2) / 6 * s * 2) + (s / 3) * x2 by
        funext x2; ring]
      rw [int01_affine]
      ring
    have h1 : ∀ x0 : ℝ,
        (∫ x1 in (0:ℝ)..1, (-s + (x0 + x1 + 2) / 6 * s * 2)) =
          -s + (x0 + 5/2) / 6 * s * 2 := by
      intro x0
      rw [show (fun x1 : ℝ => -s + (x0 + x1 + 2) / 6 * s * 2) =
          fun x1 : ℝ => (-s + (x0 + 2) / 6 * s * 2) + (s / 3) * x1 by
        funext x1; ring]
      rw [int01_affine]
      ring
    simp only [h5, h4, h3, h2, h1]
    rw [show (fun x0 : ℝ => -s + (x0 + 5/2) / 6 * s * 2) =
        fun x0 : ℝ => (-s + (5/2) / 6 * s * 2) + (s / 3) * x0 by
      funext x0; ring]
    rw [int01_affine]
    ring

/-- Witness for `gaussianRand_range_and_mean`: with `s = 1` and all six
draws `0`, the sampler returns `-1`, which lies in `[-1, 1]`. -/
theorem gaussianRand_range_and_mean_witness :
    -(1:ℝ) ≤ gaussianRand 1 (fun _ => 0) ∧ gaussianRand 1 (fun _ => 0) ≤ 1 :=
  gaussianRand_range_and_mean.2.1 1 (fun _ => 0) (by norm_num)
    (fun _ => ⟨le_refl 0, by norm_num⟩)

/-- Zeroing the negative entries of a list commutes with bias-augmented
`getD` lookup: entry `j` of `1 :: l.map (zero-out-negatives)` is the
zero-out-negatives image of entry `j` of `1 :: l`. -/
theorem getD_cons_map_zeroNeg (l : List ℝ) (j : ℕ) :
    ((1:ℝ) :: l.map fun x => if x < 0 then 0 else x).getD j 0 =
      (if ((1:ℝ) :: l).getD j 0 < 0 then 0 else ((1:ℝ) :: l).getD j 0) := by
  match j with
  | 0 => norm_num
  | k + 1 =>
    simp only [List.getD_eq_getElem?_getD, List.getElem?_cons_succ, List.getElem?_map]
    cases l[k]? with
    | none => norm_num
    | some a => simp

/-- A negative entry of the visible input contributes nothing to
`hiddenEnergy`, so zeroing negative entries leaves every hidden
activation energy unchanged. -/
theorem hiddenEnergy_cons_map_zeroNeg (w : List (List ℝ)) (v : List ℝ) (i : ℕ) :
    hiddenEnergy w ((1:ℝ) :: v.map fun x => if x < 0 then 0 else x) i =
      hiddenEnergy w ((1:ℝ) :: v) i := by
  unfold hiddenEnergy
  rw [List.length_cons, List.length_map, List.length_cons]
  refine congrArg List.sum (List.map_congr_left fun j _ => ?_)
  rw [getD_cons_map_zeroNeg]
  by_cases hx : ((1:ℝ) :: v).getD j 0 < 0
  · rw [if_pos hx, if_pos hx, if_neg (by norm_num : ¬(0:ℝ) < 0), mul_zero]
  · rw [if_neg hx, if_neg hx]

/-- **C9**: `getHiddenLayer` returns identical energies, probabilities
and states when every negative entry of its visible input is replaced
by `0` (a negative visible entry contributes nothing to any hidden
energy sum), for the same random draws; `getVisibleLayer` has no such
rule: a concrete engine and hidden input with a negative entry yield a
different result after the replacement. -/
theorem negative_visible_entries_ignored :
    (∀ (w : List (List ℝ)) (v : List ℝ) (r : ℕ → ℝ),
        getHiddenLayer w (.arr (v.map fun x => if x < 0 then 0 else x)) r =
          getHiddenLayer w (.arr v) r) ∧
    (∃ (w : List (List ℝ)) (h : List ℝ) (r : ℕ → ℝ),
        getVisibleLayer w (.arr (h.map fun x => if x < 0 then 0 else x)) r ≠
          getVisibleLayer w (.arr h) r) := by
  constructor
  · intro w v r
    simp only [getHiddenLayer, List.length_map, hiddenEnergy_cons_map_zeroNeg]
  · refine ⟨[[0, 0], [0, 1]], [-1], fun _ => 0, ?_⟩
    have hm : ([(-1:ℝ)].map fun x => if x < 0 then 0 else x) = [0] := by norm_num
    rw [hm]
    have hln : logistic 0 ≠ logistic (-1) := fun h => by
      have h2 := logistic_injective h
      norm_num at h2
    simp only [getVisibleLayer]
    norm_num [List.range_succ, RBMUnit.mk.injEq, hln]
    intro _
    have e1 : visibleEnergy [[0, 0], [0, 1]] [1, 0] 1 = 0 := by
      unfold visibleEnergy
      norm_num [List.range_succ]
    have e2 : visibleEnergy [[0, 0], [0, 1]] [1, -1] 1 = -1 := by
      unfold visibleEnergy
      norm_num [List.range_succ]
    rw [e1, e2]
    exact hln

theorem getD_map_range {α : Type} (f : ℕ → α) (n k : ℕ) (d : α) (h : k < n) :
    ((List.range n).map f).getD k d = f k := by
  simp [List.getD_eq_getElem?_getD, List.getElem?_map, List.getElem?_range h]

/-- Counterexample to the guard part of the claim: with a training
proportion of exactly `0` (respectively `1`), `_setInitWeights` stores
`-Infinity` (respectively `Infinity`) in the visible bias weight — no
guard exists. -/
theorem bias_init_unguarded_counterexample :
    ((setInitWeightsJS [0] 1 (fun _ _ _ => 0)).getD 1 []).getD 0 .nan =
      JSNum.negInf ∧
    ((setInitWeightsJS [1] 1 (fun _ _ _ => 0)).getD 1 []).getD 0 .nan =
      JSNum.posInf := by
  constructor
  · unfold setInitWeightsJS
    rw [getD_map_range _ _ _ _ (by norm_num), getD_map_range _ _ _ _ (by norm_num)]
    norm_num
    unfold visibleBiasInit jsDiv jsLog
    norm_num
  · unfold setInitWeightsJS
    rw [getD_map_range _ _ _ _ (by norm_num), getD_map_range _ _ _ _ (by norm_num)]
    norm_num
    unfold visibleBiasInit jsDiv jsLog
    norm_num

/-- **C3** (amended): `_setInitWeights` stores
`Math.log(p / (1 - p))` in `weights[i][0]` for every `i ≥ 1`
unconditionally; for `0 < p < 1` that is the finite real log-odds, but
at `p = 0` the stored value is `-Infinity` and at `p = 1` it is
`Infinity` — the undefined/infinite cases are not guarded against. -/
theorem bias_init_log_odds (props : List ℝ) (hiddenN : ℕ)
    (u : ℕ → ℕ → Fin 6 → ℝ) (i : ℕ) (hi : i < props.length) :
    ((setInitWeightsJS props hiddenN u).getD (i + 1) []).getD 0 .nan =
      visibleBiasInit (props.getD i 0) ∧
    (0 < props.getD i 0 → props.getD i 0 < 1 →
      visibleBiasInit (props.getD i 0) =
        .num (Real.log (props.getD i 0 / (1 - props.getD i 0)))) ∧
    (props.getD i 0 = 0 → visibleBiasInit (props.getD i 0) = .negInf) ∧
    (props.getD i 0 = 1 → visibleBiasInit (props.getD i 0) = .posInf) := by
  refine ⟨?_, ?_, ?_, ?_⟩
  · unfold setInitWeightsJS
    rw [getD_map_range _ _ _ _ (by omega), getD_map_range _ _ _ _ (by omega)]
    norm_num
  · intro h0 h1
    have hden : ¬(1 - props.getD i 0 = 0) := by intro h; linarith
    unfold visibleBiasInit jsDiv
    rw [if_neg hden]
    simp only [jsLog]
    rw [if_pos (div_pos h0 (by linarith))]
  · intro h0
    unfold visibleBiasInit jsDiv jsLog
    rw [h0]
    norm_num
  · intro h1
    unfold visibleBiasInit jsDiv jsLog
    rw [h1]
    norm_num

/-- Witness for `bias_init_log_odds` at proportion `1/2`. -/
theorem bias_init_log_odds_witness :
    ((setInitWeightsJS [(1:ℝ)/2] 1 (fun _ _ _ => 0)).getD 1 []).getD 0 .nan =
      visibleBiasInit (([(1:ℝ)/2]).getD 0 0) :=
  (bias_init_log_odds [(1:ℝ)/2] 1 (fun _ _ _ => 0) 0 (by norm_num)).1

/-! ## Index characterization of the weight update -/

theorem getD_mapIdx {α β : Type} (l : List α) (F : ℕ → α → β) (i : ℕ)
    (d : β) (d' : α) (h : i < l.length) :
    (l.mapIdx F).getD i d = F i (l.getD i d') := by
  simp [List.getD_eq_getElem?_getD, List.getElem?_mapIdx, List.getElem?_eq_getElem h]

theorem getD_of_length_le {α : Type} (l : List α) (i : ℕ) (d : α)
    (h : l.length ≤ i) : l.getD i d = d := by
  simp [List.getD_eq_getElem?_getD, List.getElem?_eq_none h]

theorem length_updateWeights (w : List (List ℝ)) (lr : ℝ) (visPos : List ℝ)
    (hPos vNeg hNeg : List RBMUnit) :
    (updateWeights w lr visPos hPos vNeg hNeg).length = w.length := by
  simp [updateWeights]

theorem length_updateWeights_row (w : List (List ℝ)) (lr : ℝ) (visPos : List ℝ)
    (hPos vNeg hNeg : List RBMUnit) (i : ℕ) :
    ((updateWeights w lr visPos hPos vNeg hNeg).getD i []).length =
      (w.getD i []).length := by
  by_cases hi : i < w.length
  · rw [updateWeights, getD_mapIdx _ _ _ _ [] hi]
    split_ifs <;> simp
  · rw [getD_of_length_le _ _ _ (by rw [length_updateWeights]; omega),
      getD_of_length_le _ _ _ (by omega)]

/-- Entry `(i, j)` of the updated matrix: incremented by
`lr * (positive - negative)` exactly when row `i` is visited
(`i < visPos.length`), not skipped (`visPos[i] ≥ 0`), and column `j` is
visited (`j < hPos.length`) on an existing cell; otherwise unchanged. -/
theorem updateWeights_getD (w : List (List ℝ)) (lr : ℝ) (visPos : List ℝ)
    (hPos vNeg hNeg : List RBMUnit) (i j : ℕ) (hi : i < w.length) :
    ((updateWeights w lr visPos hPos vNeg hNeg).getD i []).getD j 0 =
      if i < visPos.length ∧ ¬ visPos.getD i 0 < 0 ∧ j < hPos.length ∧
          j < (w.getD i []).length then
        (w.getD i []).getD j 0 +
          lr * (visPos.getD i 0 * (hPos.getD j ⟨0, 0⟩).probability -
            (vNeg.getD i ⟨0, 0⟩).probability * (hNeg.getD j ⟨0, 0⟩).probability)
      else (w.getD i []).getD j 0 := by
  rw [updateWeights, getD_mapIdx _ _ _ _ [] hi]
  by_cases h1 : i < visPos.length
  · rw [if_pos h1]
    by_cases h2 : visPos.getD i 0 < 0
    · rw [if_pos h2, if_neg (by tauto)]
    · rw [if_neg h2]
      by_cases h3 : j < (w.getD i []).length
      · rw [getD_mapIdx _ _ _ _ 0 h3]
        by_cases h4 : j < hPos.length
        · rw [if_pos h4, if_pos ⟨h1, h2, h4, h3⟩]
        · rw [if_neg h4, if_neg (by tauto)]
      · rw [getD_of_length_le _ _ _ (by simp only [List.length_mapIdx]; omega),
          if_neg (by tauto), getD_of_length_le _ _ _ (by omega)]
  · rw [if_neg h1, if_neg (by tauto)]

/-! ## Unfolding and inversion lemmas for the training loop -/

theorem trainExample_eq (w : List (List ℝ)) (data : List ℝ) (lr : ℝ)
    (gibbs : ℕ) (r : ℕ → ℝ) (hp vn hn : List RBMUnit)
    (hhp : getHiddenLayer w (.arr data) r = .ok hp)
    (hneg : negPhase w data gibbs (shift r (hidCount w)) = .ok (vn, hn)) :
    trainExample w data lr gibbs r =
      .ok (cdError (1 :: data) (⟨1, 1⟩ :: hp) (⟨1, 1⟩ :: vn) (⟨1, 1⟩ :: hn),
        updateWeights w lr (1 :: data) (⟨1, 1⟩ :: hp) (⟨1, 1⟩ :: vn)
          (⟨1, 1⟩ :: hn)) := by
  unfold trainExample
  rw [hhp, hneg]
  rfl

theorem trainExample_ok_inv (w : List (List ℝ)) (data : List ℝ) (lr : ℝ)
    (gibbs : ℕ) (r : ℕ → ℝ) (e : ℝ) (w2 : List (List ℝ))
    (h : trainExample w data lr gibbs r = .ok (e, w2)) :
    ∃ hp vn hn,
      getHiddenLayer w (.arr data) r = .ok hp ∧
      negPhase w data gibbs (shift r (hidCount w)) = .ok (vn, hn) ∧
      e = cdError (1 :: data) (⟨1, 1⟩ :: hp) (⟨1, 1⟩ :: vn) (⟨1, 1⟩ :: hn) ∧
      w2 = updateWeights w lr (1 :: data) (⟨1, 1⟩ :: hp) (⟨1, 1⟩ :: vn)
        (⟨1, 1⟩ :: hn) := by
  unfold trainExample at h
  cases hgh : getHiddenLayer w (.arr data) r with
  | error er => rw [hgh] at h; exact absurd h (by simp [Bind.bind, Except.bind])
  | ok hp =>
    rw [hgh] at h
    cases hneg : negPhase w data gibbs (shift r (hidCount w)) with
    | error er => rw [hneg] at h; exact absurd h (by simp [Bind.bind, Except.bind])
    | ok p =>
      obtain ⟨vn, hn⟩ := p
      rw [hneg] at h
      simp only [Bind.bind, Except.bind, Except.ok.injEq, Prod.mk.injEq] at h
      exact ⟨hp, vn, hn, rfl, rfl, h.1.symm, h.2.symm⟩

theorem trainExample_dims (w : List (List ℝ)) (data : List ℝ) (lr : ℝ)
    (gibbs : ℕ) (r : ℕ → ℝ) (e : ℝ) (w2 : List (List ℝ))
    (h : trainExample w data lr gibbs r = .ok (e, w2)) :
    w2.length = w.length ∧
      ∀ i, (w2.getD i []).length = (w.getD i []).length := by
  obtain ⟨hp, vn, hn, _, _, _, hw2⟩ := trainExample_ok_inv w data lr gibbs r e w2 h
  subst hw2
  exact ⟨length_updateWeights .., fun i => length_updateWeights_row .. ⟩

theorem trainExample_cell00 (w : List (List ℝ)) (data : List ℝ) (lr : ℝ)
    (gibbs : ℕ) (r : ℕ → ℝ) (e : ℝ) (w2 : List (List ℝ))
    (h : trainExample w data lr gibbs r = .ok (e, w2)) :
    (w2.getD 0 []).getD 0 0 = (w.getD 0 []).getD 0 0 := by
  obtain ⟨hp, vn, hn, _, _, _, hw2⟩ := trainExample_ok_inv w data lr gibbs r e w2 h
  subst hw2
  by_cases h0 : 0 < w.length
  · rw [updateWeights_getD _ _ _ _ _ _ _ _ h0]
    split_ifs with hc
    · simp
    · rfl
  · have hw : w = [] := by
      cases w with
      | nil => rfl
      | cons a l => simp at h0
    subst hw
    rfl

theorem trainLoop_ok_dims (dataset : List (List ℝ)) :
    ∀ (w : List (List ℝ)) (lr : ℝ) (gibbs : ℕ) (r : ℕ → ℝ) (es : List ℝ)
      (wf : List (List ℝ)), trainLoop w dataset lr gibbs r = .ok (es, wf) →
      (wf.length = w.length ∧
        ∀ i, (wf.getD i []).length = (w.getD i []).length) ∧
      (wf.getD 0 []).getD 0 0 = (w.getD 0 []).getD 0 0 := by
  induction dataset with
  | nil =>
    intro w lr gibbs r es wf h
    unfold trainLoop at h
    simp only [Except.ok.injEq, Prod.mk.injEq] at h
    rw [← h.2]
    exact ⟨⟨rfl, fun i => rfl⟩, rfl⟩
  | cons d rest ih =>
    intro w lr gibbs r es wf h
    unfold trainLoop at h
    cases hte : trainExample w d lr gibbs r with
    | error er => rw [hte] at h; exact absurd h (by simp [Bind.bind, Except.bind])
    | ok p =>
      obtain ⟨e, w2⟩ := p
      rw [hte] at h
      simp only [Bind.bind, Except.bind] at h
      cases htl : trainLoop w2 rest lr gibbs (shift r (consumed w gibbs)) with
      | error er => rw [htl] at h; exact absurd h (by simp)
      | ok q =>
        obtain ⟨es2, wf2⟩ := q
        rw [htl] at h
        simp only [Except.ok.injEq, Prod.mk.injEq] at h
        obtain ⟨hd1, hd2⟩ := trainExample_dims w d lr gibbs r e w2 hte
        have hc := trainExample_cell00 w d lr gibbs r e w2 hte
        obtain ⟨⟨hl1, hl2⟩, hcell⟩ := ih w2 lr gibbs (shift r (consumed w gibbs)) es2 wf2 htl
        rw [← h.2]
        exact ⟨⟨hl1.trans hd1, fun i => (hl2 i).trans (hd2 i)⟩, hcell.trans hc⟩

/-! ## Concrete evaluation of one training step on a 1×1 zero engine -/

theorem shift_const (n : ℕ) : shift (fun _ : ℕ => (0:ℝ)) n = fun _ => 0 := rfl

theorem hiddenEnergy_eval :
    hiddenEnergy [[0, 0], [0, 0]] [1, 1] 1 = 0 := by
  unfold hiddenEnergy
  norm_num [List.range_succ]

theorem visibleEnergy_eval :
    visibleEnergy [[0, 0], [0, 0]] [1, 1] 1 = 0 := by
  unfold visibleEnergy
  norm_num [List.range_succ]

theorem getHiddenLayer_eval :
    getHiddenLayer [[0, 0], [0, 0]] (.arr [1]) (fun _ => 0) =
      .ok [⟨1, logistic 0⟩] := by
  unfold getHiddenLayer
  norm_num [List.range_succ, hiddenEnergy_eval, logistic_pos]

theorem getVisibleLayer_eval :
    getVisibleLayer [[0, 0], [0, 0]] (.arr [1]) (fun _ => 0) =
      .ok [⟨1, logistic 0⟩] := by
  unfold getVisibleLayer
  norm_num [List.range_succ, visibleEnergy_eval, logistic_pos]

theorem negPhase_eval :
    negPhase [[0, 0], [0, 0]] [1] 1 (fun _ => 0) =
      .ok ([⟨1, logistic 0⟩], [⟨1, logistic 0⟩]) := by
  unfold negPhase
  rw [getHiddenLayer_eval]
  simp only [Bind.bind, Except.bind, List.map_cons, List.map_nil, shift_const]
  rw [getVisibleLayer_eval]
  rfl

theorem cdError_eval :
    cdError ((1:ℝ) :: [1]) (⟨1, 1⟩ :: [⟨1, logistic 0⟩])
      (⟨1, 1⟩ :: [⟨1, logistic 0⟩]) (⟨1, 1⟩ :: [⟨1, logistic 0⟩]) = 17 / 16 := by
  unfold cdError
  norm_num [List.range_succ, logistic_zero]

theorem updateWeights_eval :
    updateWeights [[0, 0], [0, 0]] 0 ((1:ℝ) :: [1]) (⟨1, 1⟩ :: [⟨1, logistic 0⟩])
      (⟨1, 1⟩ :: [⟨1, logistic 0⟩]) (⟨1, 1⟩ :: [⟨1, logistic 0⟩]) =
      [[0, 0], [0, 0]] := by
  unfold updateWeights
  norm_num

theorem trainExample_eval :
    trainExample [[0, 0], [0, 0]] [1] 0 1 (fun _ => 0) =
      .ok (17 / 16, [[0, 0], [0, 0]]) := by
  rw [trainExample_eq [[0, 0], [0, 0]] [1] 0 1 (fun _ => 0)
      [⟨1, logistic 0⟩] [⟨1, logistic 0⟩] [⟨1, logistic 0⟩]
      getHiddenLayer_eval (by rw [shift_const]; exact negPhase_eval),
    cdError_eval, updateWeights_eval]

theorem train_eval :
    train (some [[0, 0], [0, 0]]) [[1]] 0 1 none (fun _ _ _ => 0) (fun _ => 0) =
      .ok ([17 / 16], some [[0, 0], [0, 0]]) := by
  unfold train trainLoop trainLoop
  simp only [trainExample_eval, Bind.bind, Except.bind, Except.map]

theorem sum_map_range_eq (f : ℕ → ℝ) (n : ℕ) :
    ((List.range n).map f).sum = ∑ k ∈ Finset.range n, f k := by
  induction n with
  | zero => simp
  | succ n ih =>
    rw [List.range_succ, List.map_append, List.sum_append, Finset.sum_range_succ, ih]
    simp

/-- **C1**: for a dataset row processed by `train` (with the layers the
two CD phases produced), every cell `(i, j)` of the augmented index
space with a non-negative positive-visible value at `i` is incremented
in place by
`learningRate * (positive_i * hiddenPosProb_j - visNegProb_i * hiddenNegProb_j)`,
and every row `i` with a negative positive-visible value is left
entirely unchanged. -/
theorem train_update_rule (w : List (List ℝ)) (data : List ℝ) (lr : ℝ)
    (gibbs : ℕ) (r : ℕ → ℝ) (hp vn hn : List RBMUnit) (V H : ℕ)
    (hhp : getHiddenLayer w (.arr data) r = .ok hp)
    (hneg : negPhase w data gibbs (shift r (hidCount w)) = .ok (vn, hn))
    (hw : w.length = V + 1)
    (hrow : ∀ i, i < w.length → (w.getD i []).length = H + 1)
    (hdata : data.length = V) (hhp2 : hp.length = H) :
    ∃ e w2, trainExample w data lr gibbs r = .ok (e, w2) ∧
      ∀ i j, i < V + 1 → j < H + 1 →
        (0 ≤ ((1:ℝ) :: data).getD i 0 →
          (w2.getD i []).getD j 0 = (w.getD i []).getD j 0 +
            lr * (((1:ℝ) :: data).getD i 0 *
                ((⟨1, 1⟩ :: hp : List RBMUnit).getD j ⟨0, 0⟩).probability -
              ((⟨1, 1⟩ :: vn : List RBMUnit).getD i ⟨0, 0⟩).probability *
                ((⟨1, 1⟩ :: hn : List RBMUnit).getD j ⟨0, 0⟩).probability)) ∧
        (((1:ℝ) :: data).getD i 0 < 0 →
          (w2.getD i []).getD j 0 = (w.getD i []).getD j 0) := by
  refine ⟨_, _, trainExample_eq w data lr gibbs r hp vn hn hhp hneg, ?_⟩
  intro i j hi hj
  have hiw : i < w.length := by omega
  constructor
  · intro hpos
    rw [updateWeights_getD _ _ _ _ _ _ _ _ hiw,
      if_pos ⟨by simp [hdata]; omega, not_lt.mpr hpos,
        by simp [hhp2]; omega, by rw [hrow i hiw]; omega⟩]
  · intro hneg2
    rw [updateWeights_getD _ _ _ _ _ _ _ _ hiw,
      if_neg (fun hc => hc.2.1 hneg2)]

/-- Witness for `train_update_rule` on the 1×1 zero engine: the cell
`(1, 1)` receives exactly the CD increment. -/
theorem train_update_rule_witness :
    ∃ e w2, trainExample [[0, 0], [0, 0]] [1] 0 1 (fun _ => 0) = .ok (e, w2) ∧
      ∀ i j, i < 1 + 1 → j < 1 + 1 →
        (0 ≤ ((1:ℝ) :: [1]).getD i 0 →
          (w2.getD i []).getD j 0 = (([[0, 0], [0, 0]].getD i []).getD j 0 : ℝ) +
            0 * (((1:ℝ) :: [1]).getD i 0 *
                ((⟨1, 1⟩ :: [⟨1, logistic 0⟩] : List RBMUnit).getD j ⟨0, 0⟩).probability -
              ((⟨1, 1⟩ :: [⟨1, logistic 0⟩] : List RBMUnit).getD i ⟨0, 0⟩).probability *
                ((⟨1, 1⟩ :: [⟨1, logistic 0⟩] : List RBMUnit).getD j ⟨0, 0⟩).probability)) ∧
        (((1:ℝ) :: [1]).getD i 0 < 0 →
          (w2.getD i []).getD j 0 = (([[0, 0], [0, 0]].getD i []).getD j 0 : ℝ)) :=
  train_update_rule [[0, 0], [0, 0]] [1] 0 1 (fun _ => 0)
    [⟨1, logistic 0⟩] [⟨1, logistic 0⟩] [⟨1, logistic 0⟩] 1 1
    getHiddenLayer_eval (by rw [shift_const]; exact negPhase_eval)
    (by simp) (by intro i hi; simp only [List.length_cons, List.length_nil] at hi; interval_cases i <;> simp) (by simp) (by simp)

/-- Counterexample to **C2** as stated: on the 1×1 zero engine with the
row `[1]`, the scalar appended by `train` is `17/16`, while the spec's
formula (squared difference against the negative-visible probability at
`i` alone) evaluates to `1/2` on the very layers of that run. -/
theorem train_error_counterexample :
    trainExample [[0, 0], [0, 0]] [1] 0 1 (fun _ => 0) =
      .ok (17 / 16, [[0, 0], [0, 0]]) ∧
    cdErrorSpec ((1:ℝ) :: [1]) (⟨1, 1⟩ :: [⟨1, logistic 0⟩])
      (⟨1, 1⟩ :: [⟨1, logistic 0⟩]) = 1 / 2 ∧
    (17 / 16 : ℝ) ≠ 1 / 2 := by
  refine ⟨trainExample_eval, ?_, by norm_num⟩
  unfold cdErrorSpec
  norm_num [List.range_succ, logistic_zero]

/-- **C2** (amended): the scalar appended per example is the sum over
the touched `(i, j)` pairs of the squared difference between the
binarized positive-visible value at `i` and the *negative statistic*
`visNegProb_i * hiddenNegProb_j` (the product, not the visible
probability alone). -/
theorem train_error_formula (w : List (List ℝ)) (data : List ℝ) (lr : ℝ)
    (gibbs : ℕ) (r : ℕ → ℝ) (hp vn hn : List RBMUnit) (V H : ℕ)
    (hhp : getHiddenLayer w (.arr data) r = .ok hp)
    (hneg : negPhase w data gibbs (shift r (hidCount w)) = .ok (vn, hn))
    (hdata : data.length = V) (hhp2 : hp.length = H) :
    ∃ w2, trainExample w data lr gibbs r = .ok
      (∑ i ∈ Finset.range (V + 1),
        if ((1:ℝ) :: data).getD i 0 < 0 then 0
        else ∑ j ∈ Finset.range (H + 1),
          ((if ((1:ℝ) :: data).getD i 0 = 0 then (0:ℝ) else 1) -
            ((⟨1, 1⟩ :: vn : List RBMUnit).getD i ⟨0, 0⟩).probability *
              ((⟨1, 1⟩ :: hn : List RBMUnit).getD j ⟨0, 0⟩).probability) ^ 2,
        w2) := by
  have hsum : cdError (1 :: data) (⟨1, 1⟩ :: hp) (⟨1, 1⟩ :: vn) (⟨1, 1⟩ :: hn) =
      ∑ i ∈ Finset.range (V + 1),
        if ((1:ℝ) :: data).getD i 0 < 0 then 0
        else ∑ j ∈ Finset.range (H + 1),
          ((if ((1:ℝ) :: data).getD i 0 = 0 then (0:ℝ) else 1) -
            ((⟨1, 1⟩ :: vn : List RBMUnit).getD i ⟨0, 0⟩).probability *
              ((⟨1, 1⟩ :: hn : List RBMUnit).getD j ⟨0, 0⟩).probability) ^ 2 := by
    unfold cdError
    simp only [List.length_cons]
    rw [hdata, hhp2, sum_map_range_eq]
    refine Finset.sum_congr rfl fun i _ => ?_
    split_ifs <;> first | rfl | rw [sum_map_range_eq]
  exact ⟨_, by rw [trainExample_eq w data lr gibbs r hp vn hn hhp hneg, hsum]⟩

/-- Witness for `train_error_formula` on the 1×1 zero engine. -/
theorem train_error_formula_witness :
    ∃ w2, trainExample [[0, 0], [0, 0]] [1] 0 1 (fun _ => 0) = .ok
      (∑ i ∈ Finset.range (1 + 1),
        if ((1:ℝ) :: [1]).getD i 0 < 0 then 0
        else ∑ j ∈ Finset.range (1 + 1),
          ((if ((1:ℝ) :: [1]).getD i 0 = 0 then (0:ℝ) else 1) -
            ((⟨1, 1⟩ :: [⟨1, logistic 0⟩] : List RBMUnit).getD i ⟨0, 0⟩).probability *
              ((⟨1, 1⟩ :: [⟨1, logistic 0⟩] : List RBMUnit).getD j ⟨0, 0⟩).probability) ^ 2,
        w2) :=
  train_error_formula [[0, 0], [0, 0]] [1] 0 1 (fun _ => 0)
    [⟨1, logistic 0⟩] [⟨1, logistic 0⟩] [⟨1, logistic 0⟩] 1 1
    getHiddenLayer_eval (by rw [shift_const]; exact negPhase_eval)
    (by simp) (by simp)

/-- Counterexample to **C4** as stated: with an absent weight matrix,
no `hiddenNodes` argument and an *empty* dataset, `train` does not fail
at all — it returns an empty error list. -/
theorem train_uninitialized_counterexample :
    train none [] 1 1 none (fun _ _ _ => 0) (fun _ => 0) = .ok ([], none) := rfl

/-- **C4** (amended): with an absent weight matrix, no `hiddenNodes`
and a non-empty dataset, `train` fails — but with a generic `TypeError`
raised when the first sampling call dereferences the absent matrix; the
code defines no distinguished `NotInitialized` error.  (With an empty
dataset it succeeds, returning `[]`.) -/
theorem train_uninitialized (dataset : List (List ℝ)) (lr : ℝ) (gibbs : ℕ)
    (u : ℕ → ℕ → Fin 6 → ℝ) (r : ℕ → ℝ) (hne : dataset ≠ []) :
    train none dataset lr gibbs none u r = .error .typeError := by
  unfold train
  simp [hTruthy, hne]

/-- Witness for `train_uninitialized` on a one-row dataset. -/
theorem train_uninitialized_witness :
    train none [[1]] 1 1 none (fun _ _ _ => 0) (fun _ => 0) =
      .error .typeError :=
  train_uninitialized [[1]] 1 1 (fun _ _ _ => 0) (fun _ => 0) (by simp)

/-- **C7**: a `train` call on an initialized `(V+1) × (H+1)` engine
with well-formed rows returns a weight matrix of exactly the same
dimensions (and by induction over calls, any number of such calls
never changes the dimensions). -/
theorem train_preserves_dims (w : List (List ℝ)) (V H : ℕ)
    (dataset : List (List ℝ)) (lr : ℝ) (gibbs : ℕ) (hnodes : Option ℕ)
    (u : ℕ → ℕ → Fin 6 → ℝ) (r : ℕ → ℝ) (es : List ℝ)
    (wf : Option (List (List ℝ)))
    (hw : w.length = V + 1)
    (hrow : ∀ i, i < w.length → (w.getD i []).length = H + 1)
    (hds : ∀ d ∈ dataset, d.length = V)
    (hres : train (some w) dataset lr gibbs hnodes u r = .ok (es, wf)) :
    ∃ w2, wf = some w2 ∧ w2.length = V + 1 ∧
      ∀ i, i < w2.length → (w2.getD i []).length = H + 1 := by
  rw [show train (some w) dataset lr gibbs hnodes u r =
      (trainLoop w dataset lr gibbs r).map (fun p => (p.1, some p.2)) from rfl]
    at hres
  cases htl : trainLoop w dataset lr gibbs r with
  | error er => rw [htl] at hres; exact absurd hres (by simp [Except.map])
  | ok p =>
    obtain ⟨es2, w2⟩ := p
    rw [htl] at hres
    simp only [Except.map, Except.ok.injEq, Prod.mk.injEq] at hres
    obtain ⟨⟨hl, hrows⟩, _⟩ := trainLoop_ok_dims dataset w lr gibbs r es2 w2 htl
    refine ⟨w2, hres.2.symm, by omega, fun i hi => ?_⟩
    rw [hrows i, hrow i (by omega)]

/-- Witness for `train_preserves_dims`: one call on the 1×1 zero
engine keeps the 2×2 dimensions. -/
theorem train_preserves_dims_witness :
    ∃ w2, (some [[(0:ℝ), 0], [0, 0]]) = some w2 ∧ w2.length = 1 + 1 ∧
      ∀ i, i < w2.length → (w2.getD i []).length = 1 + 1 :=
  train_preserves_dims [[0, 0], [0, 0]] 1 1 [[1]] 0 1 none
    (fun _ _ _ => 0) (fun _ => 0) [17 / 16] (some [[0, 0], [0, 0]])
    (by simp) (by intro i hi; simp only [List.length_cons, List.length_nil] at hi; interval_cases i <;> simp) (by simp) train_eval

/-- **C10**: at the bias-to-bias cell `(0, 0)` both the positive and
the negative statistic are `1 * 1`, so the increment is
`lr * (1*1 - 1*1) = 0`: the update loop writes the cell (row `0` is
never skipped) but adds exactly `0`, and across a whole `train` call
the cell's numeric value never changes. -/
theorem train_bias_bias_cell :
    (∀ (data : List ℝ) (hp vn hn : List RBMUnit) (lr : ℝ),
      lr * (((1:ℝ) :: data).getD 0 0 *
          ((⟨1, 1⟩ :: hp : List RBMUnit).getD 0 ⟨0, 0⟩).probability -
        ((⟨1, 1⟩ :: vn : List RBMUnit).getD 0 ⟨0, 0⟩).probability *
          ((⟨1, 1⟩ :: hn : List RBMUnit).getD 0 ⟨0, 0⟩).probability) = 0) ∧
    (∀ (w : List (List ℝ)) (data : List ℝ) (lr : ℝ) (hp vn hn : List RBMUnit),
      0 < w.length → 0 < (w.getD 0 []).length →
      ((updateWeights w lr (1 :: data) (⟨1, 1⟩ :: hp) (⟨1, 1⟩ :: vn)
          (⟨1, 1⟩ :: hn)).getD 0 []).getD 0 0 =
        (w.getD 0 []).getD 0 0 + lr * (1 * 1 - 1 * 1)) ∧
    (∀ (w : List (List ℝ)) (dataset : List (List ℝ)) (lr : ℝ) (gibbs : ℕ)
      (hnodes : Option ℕ) (u : ℕ → ℕ → Fin 6 → ℝ) (r : ℕ → ℝ) (es : List ℝ)
      (wf : Option (List (List ℝ))),
      train (some w) dataset lr gibbs hnodes u r = .ok (es, wf) →
      ∃ w2, wf = some w2 ∧
        (w2.getD 0 []).getD 0 0 = (w.getD 0 []).getD 0 0) := by
  refine ⟨fun data hp vn hn lr => by simp, ?_, ?_⟩
  · intro w data lr hp vn hn hl hr
    rw [updateWeights_getD _ _ _ _ _ _ _ _ hl,
      if_pos ⟨by simp, by simp, by simp, hr⟩]
    simp
  · intro w dataset lr gibbs hnodes u r es wf hres
    rw [show train (some w) dataset lr gibbs hnodes u r =
        (trainLoop w dataset lr gibbs r).map (fun p => (p.1, some p.2)) from rfl]
      at hres
    cases htl : trainLoop w dataset lr gibbs r with
    | error er => rw [htl] at hres; exact absurd hres (by simp [Except.map])
    | ok p =>
      obtain ⟨es2, w2⟩ := p
      rw [htl] at hres
      simp only [Except.map, Except.ok.injEq, Prod.mk.injEq] at hres
      obtain ⟨_, hcell⟩ := trainLoop_ok_dims dataset w lr gibbs r es2 w2 htl
      exact ⟨w2, hres.2.symm, hcell⟩

/-- Witness for `train_bias_bias_cell`: one concrete call keeps the
`(0, 0)` cell at `0`. -/
theorem train_bias_bias_cell_witness :
    ∃ w2, (some [[(0:ℝ), 0], [0, 0]]) = some w2 ∧
      (w2.getD 0 []).getD 0 0 = (([[(0:ℝ), 0], [0, 0]].getD 0 []).getD 0 0) :=
  train_bias_bias_cell.2.2 [[0, 0], [0, 0]] [[1]] 0 1 none
    (fun _ _ _ => 0) (fun _ => 0) [17 / 16] (some [[0, 0], [0, 0]]) train_eval

end RBM
